import Mathlib

/-!
Verification of the receipt RLP codec
(`crates/primitives/src/receipt.rs`).

The receipt-specific logic (`Receipt::encode_fields`, `Receipt::encode_inner`,
`Receipt::receipt_length`, `Receipt::decode_receipt`, the `Encodable` and
`Decodable` impls) is translated directly from the source.  The RLP
primitives it calls (`reth_rlp::Header`, `length_of_length`, and the
`Encodable`/`Decodable` instances for `bool`, `u64`, byte strings,
fixed-size byte arrays, `Log` and `Vec<T>`) are not part of the visible
sources; they are modelled from the specification (sections 4.1, 4.2 and 6).

Bytes are modelled as `Nat`, buffers as `List Nat`.  A decoder takes the
buffer and returns the decoded value together with the remaining bytes
(mirroring Rust's `&mut &[u8]` cursor); the top level `Receipt.decode`
additionally reports the cursor position on failure, mirroring the cursor
state the original leaves behind on each failing path.
-/

set_option maxRecDepth 4000

deriving instance DecidableEq for Except

namespace RethRlp

/-- Modelled from the spec: the RLP decode error kinds of section 7 together
with the error variants the shared RLP library exposes (`reth_rlp::DecodeError`).
Unknown receipt types and the empty-input/empty-list failures are reported
through `custom`, exactly as `receipt.rs` does. -/
inductive DecodeError where
  | inputTooShort
  | unexpectedString
  | unexpectedList
  | unexpectedLength
  | nonCanonicalSingleByte
  | nonCanonicalSize
  | leadingZero
  | overflow
  | listLengthMismatch (expected got : Nat)
  | custom (msg : String)
deriving DecidableEq, Repr

/-- Fuel-driven worker computing the minimal big-endian byte representation
of a natural number (most significant byte first, no leading zero, `0 ↦ []`). -/
def beBytesF : Nat → Nat → List Nat
  | 0, _ => []
  | fuel + 1, n => if n = 0 then [] else beBytesF fuel (n / 256) ++ [n % 256]

/-- Modelled from the spec: the minimal big-endian representation of a
payload length (used by the long-form header encoding of section 4.1). -/
def beBytes (n : Nat) : List Nat := beBytesF n n

/-- Modelled from the spec: read a big-endian integer back from its bytes. -/
def beVal (bs : List Nat) : Nat := bs.foldl (fun a b => a * 256 + b) 0

/-- Modelled from the spec: `reth_rlp::length_of_length`, the number of bytes
an RLP header occupies for a given payload length (one prefix byte, plus the
big-endian bytes of the length itself in the long form). -/
def length_of_length (payload_length : Nat) : Nat :=
  if payload_length < 56 then 1 else 1 + (beBytes payload_length).length

/-- Modelled from the spec: a transient RLP header value
(`reth_rlp::Header`): string-or-list flag and exact payload byte count. -/
structure Header where
  list : Bool
  payload_length : Nat
deriving DecidableEq, Repr

/-- Modelled from the spec (section 4.1): header encoding.  Payload lengths
below 56 use a single prefix byte (`0x80`/`0xc0` base plus the length);
longer payloads use base `0xb7`/`0xf7` plus the length-of-length, followed by
the big-endian bytes of the payload length. -/
def Header.encode (h : Header) : List Nat :=
  let base : Nat := if h.list then 0xc0 else 0x80
  if h.payload_length < 56 then
    [base + h.payload_length]
  else
    (base + 55 + (beBytes h.payload_length).length) :: beBytes h.payload_length

/-- Modelled from the spec (section 4.1): header decoding.  The result pairs
the outcome with the remaining buffer in every case, mirroring the cursor
mutation of `reth_rlp::Header::decode`.  A single byte below `0x80` is its
own payload (the header is reported without consuming the byte); a
zero length-of-length and non-minimal long forms are rejected, as are
length-of-length reads past the end of the buffer. -/
def Header.decode : List Nat → Except DecodeError Header × List Nat
  | [] => (.error .inputTooShort, [])
  | b :: rest =>
    if b < 0x80 then
      (.ok ⟨false, 1⟩, b :: rest)
    else if b ≤ 0xb7 then
      let pl := b - 0x80
      if pl = 1 then
        match rest with
        | [] => (.error .inputTooShort, rest)
        | c :: _ =>
          if c < 0x80 then (.error .nonCanonicalSingleByte, rest)
          else (.ok ⟨false, pl⟩, rest)
      else (.ok ⟨false, pl⟩, rest)
    else if b ≤ 0xbf then
      let lol := b - 0xb7
      if rest.length < lol then (.error .inputTooShort, rest)
      else
        let lenBytes := rest.take lol
        if lenBytes.head? = some 0 then (.error .leadingZero, rest)
        else
          let pl := beVal lenBytes
          if pl < 56 then (.error .nonCanonicalSize, rest.drop lol)
          else (.ok ⟨false, pl⟩, rest.drop lol)
    else if b ≤ 0xf7 then
      (.ok ⟨true, b - 0xc0⟩, rest)
    else
      let lol := b - 0xf7
      if rest.length < lol then (.error .inputTooShort, rest)
      else
        let lenBytes := rest.take lol
        if lenBytes.head? = some 0 then (.error .leadingZero, rest)
        else
          let pl := beVal lenBytes
          if pl < 56 then (.error .nonCanonicalSize, rest.drop lol)
          else (.ok ⟨true, pl⟩, rest.drop lol)

/-- Modelled from the spec (sections 4.2 and 6): RLP encoding of a byte
string.  A single byte below `0x80` is its own encoding; any other string is
prefixed with a string-form header carrying its exact length. -/
def rlpStr (s : List Nat) : List Nat :=
  match s with
  | [b] => if b < 0x80 then [b] else Header.encode ⟨false, 1⟩ ++ [b]
  | _ => Header.encode ⟨false, s.length⟩ ++ s

/-- Modelled from the spec (section 6): RLP encoding of an unsigned scalar as
the string of its minimal big-endian bytes (zero becomes the empty string). -/
def rlpUint (n : Nat) : List Nat := rlpStr (beBytes n)

/-- Modelled from the spec (section 6): a boolean is encoded as the scalar
`0x00`/`0x01` (so `false` becomes the empty string `0x80`, `true` the single
byte `0x01`). -/
def rlpBool (b : Bool) : List Nat := rlpUint (if b then 1 else 0)

/-- Modelled from the spec (section 4.2): a composite list value is the
list-form header for the concatenated payload followed by the payload. -/
def encList (payload : List Nat) : List Nat :=
  Header.encode ⟨true, payload.length⟩ ++ payload

/-- Modelled from the spec (section 4.2): decoding of an unsigned scalar of
at most `maxLen` payload bytes (8 for `u64`, 1 for `u8`): a string-form
header, an overflow bound, and minimality (no leading zero byte). -/
def decodeUint (maxLen : Nat) (buf : List Nat) : Except DecodeError (Nat × List Nat) :=
  match Header.decode buf with
  | (.error e, _) => .error e
  | (.ok h, rest) =>
    if h.list then .error .unexpectedList
    else if maxLen < h.payload_length then .error .overflow
    else if rest.length < h.payload_length then .error .inputTooShort
    else
      let bytes := rest.take h.payload_length
      if bytes.head? = some 0 then .error .leadingZero
      else .ok (beVal bytes, rest.drop h.payload_length)

/-- Modelled from the spec (section 6): decoding of a boolean as a scalar
that must be `0` or `1`. -/
def decodeBool (buf : List Nat) : Except DecodeError (Bool × List Nat) :=
  match decodeUint 1 buf with
  | .error e => .error e
  | .ok (v, rest) =>
    if v = 0 then .ok (false, rest)
    else if v = 1 then .ok (true, rest)
    else .error (.custom ("invalid bool value, must be 0 or 1"))

/-- Modelled from the spec (section 4.2): decoding of an arbitrary byte
string: a string-form header followed by exactly `payload_length` bytes. -/
def decodeBytes (buf : List Nat) : Except DecodeError (List Nat × List Nat) :=
  match Header.decode buf with
  | (.error e, _) => .error e
  | (.ok h, rest) =>
    if h.list then .error .unexpectedList
    else if rest.length < h.payload_length then .error .inputTooShort
    else .ok (rest.take h.payload_length, rest.drop h.payload_length)

/-- Modelled from the spec (section 3): decoding of a fixed-size byte string
(20-byte address, 32-byte topic, 256-byte bloom): as `decodeBytes` but the
declared payload length must equal the expected size. -/
def decodeFixedBytes (n : Nat) (buf : List Nat) : Except DecodeError (List Nat × List Nat) :=
  match Header.decode buf with
  | (.error e, _) => .error e
  | (.ok h, rest) =>
    if h.list then .error .unexpectedLength
    else if h.payload_length ≠ n then .error .unexpectedLength
    else if rest.length < h.payload_length then .error .inputTooShort
    else .ok (rest.take h.payload_length, rest.drop h.payload_length)

/-- Modelled from the spec (section 4.2): decode consecutive elements from a
payload view until it is exhausted.  The fuel argument (instantiated with the
payload length) makes the loop structurally total; it only runs out if an
element decoder consumes no bytes, which no RLP decoder does. -/
def decodeElems (dec : List Nat → Except DecodeError (α × List Nat)) :
    Nat → List Nat → Except DecodeError (List α)
  | _, [] => .ok []
  | 0, _ :: _ => .error .inputTooShort
  | fuel + 1, b :: bs =>
    match dec (b :: bs) with
    | .error e => .error e
    | .ok (a, rest) =>
      match decodeElems dec fuel rest with
      | .error e => .error e
      | .ok as => .ok (a :: as)

/-- Modelled from the spec (section 4.2): decoding of a homogeneous list
value: a list-form header, then elements decoded one after the other from
exactly the declared payload bytes. -/
def decodeVec (dec : List Nat → Except DecodeError (α × List Nat)) (buf : List Nat) :
    Except DecodeError (List α × List Nat) :=
  match Header.decode buf with
  | (.error e, _) => .error e
  | (.ok h, rest) =>
    if !h.list then .error .unexpectedString
    else if rest.length < h.payload_length then .error .inputTooShort
    else
      match decodeElems dec h.payload_length (rest.take h.payload_length) with
      | .error e => .error e
      | .ok as => .ok (as, rest.drop h.payload_length)

end RethRlp

namespace RethPrimitives

open RethRlp

/-- Modelled from the spec (section 3): a log entry with a 20-byte address,
32-byte topics and arbitrary data, treated opaquely by the receipt codec. -/
structure Log where
  address : List Nat
  topics : List (List Nat)
  data : List Nat
deriving DecidableEq, Repr

/-- Modelled from the spec: RLP encoding of a `Log` as the list
`[address, topics, data]` in that fixed order. -/
def Log.encode (l : Log) : List Nat :=
  encList (rlpStr l.address ++ encList ((l.topics.map rlpStr).flatten) ++ rlpStr l.data)

/-- Modelled from the spec: RLP encoding of a sequence of logs as a list of
the individual log encodings. -/
def encLogs (ls : List Log) : List Nat := encList ((ls.map Log.encode).flatten)

/-- Receipt type discriminant (`crate::TxType`): Legacy, EIP-2930, EIP-1559. -/
inductive TxType where
  | legacy
  | eip2930
  | eip1559
deriving DecidableEq, Repr

/-- The receipt record of `receipt.rs`: type, status, cumulative gas, bloom
filter (a 256-byte string) and the ordered log list. -/
structure Receipt where
  tx_type : TxType
  success : Bool
  cumulative_gas_used : Nat
  bloom : List Nat
  logs : List Log
deriving DecidableEq, Repr

/-- The rlp header for the receipt payload (`Receipt::receipt_rlp_header`):
a list header whose payload length is the sum of the four field lengths,
each field length being the number of bytes its encoding occupies. -/
def Receipt.receipt_rlp_header (r : Receipt) : Header :=
  ⟨true, (rlpBool r.success).length + (rlpUint r.cumulative_gas_used).length +
    (rlpStr r.bloom).length + (encLogs r.logs).length⟩

/-- Encodes the receipt data (`Receipt::encode_fields`): the inner list
header followed by success, cumulative gas used, bloom and logs in order. -/
def Receipt.encode_fields (r : Receipt) : List Nat :=
  (r.receipt_rlp_header).encode ++ rlpBool r.success ++
    rlpUint r.cumulative_gas_used ++ rlpStr r.bloom ++ encLogs r.logs

/-- Encode receipt with or without the header data (`Receipt::encode_inner`).
Legacy receipts are the bare inner list; typed receipts prepend (optionally)
a string-form header for `payload + 1` bytes and the discriminant byte. -/
def Receipt.encode_inner (r : Receipt) (with_header : Bool) : List Nat :=
  match r.tx_type with
  | .legacy => r.encode_fields
  | t =>
    let payload := r.encode_fields
    let head := if with_header then Header.encode ⟨false, payload.length + 1⟩ else []
    let disc : Nat := match t with | .eip2930 => 0x01 | _ => 0x02
    head ++ disc :: payload

/-- Returns the length of the receipt data (`Receipt::receipt_length`):
header overhead plus inner payload length. -/
def Receipt.receipt_length (r : Receipt) : Nat :=
  let rlp_head := r.receipt_rlp_header
  length_of_length rlp_head.payload_length + rlp_head.payload_length

/-- The `Encodable::length` implementation for `Receipt`, translated
literally: for typed receipts the code adds one for the discriminant and then
overwrites the accumulator with `length_of_length` of it. -/
def Receipt.length (r : Receipt) : Nat :=
  let payload_len := r.receipt_length
  match r.tx_type with
  | .eip1559 => length_of_length (payload_len + 1)
  | .eip2930 => length_of_length (payload_len + 1)
  | _ => payload_len

/-- The `Encodable::encode` implementation for `Receipt`: encode with the
outer header. -/
def Receipt.encode (r : Receipt) : List Nat := r.encode_inner true

/-- Modelled from the spec: decoding of a `Log` (derived `Decodable`): a
list-form header, the three fields in order, then the check that the bytes
consumed by the fields equal the declared payload length exactly. -/
def Log.decode (buf : List Nat) : Except DecodeError (Log × List Nat) :=
  match Header.decode buf with
  | (.error e, _) => .error e
  | (.ok h, rest) =>
    if !h.list then .error .unexpectedString
    else
      let started_len := rest.length
      match decodeFixedBytes 20 rest with
      | .error e => .error e
      | .ok (address, b1) =>
        match decodeVec (decodeFixedBytes 32) b1 with
        | .error e => .error e
        | .ok (topics, b2) =>
          match decodeBytes b2 with
          | .error e => .error e
          | .ok (data, b3) =>
            let consumed := started_len - b3.length
            if consumed ≠ h.payload_length then
              .error (.listLengthMismatch h.payload_length consumed)
            else .ok (⟨address, topics, data⟩, b3)

/-- Modelled from the spec: decoding of the log sequence as a list of logs. -/
def decodeLogs (buf : List Nat) : Except DecodeError (List Log × List Nat) :=
  decodeVec Log.decode buf

/-- Decodes the receipt payload (`Receipt::decode_receipt`): works on a copy
of the cursor, decodes the inner list header (which must be a list), the four
fields in fixed order, checks the consumed byte count against the declared
payload length, and commits the cursor only on success. -/
def Receipt.decode_receipt (buf : List Nat) (tx_type : TxType) :
    Except DecodeError (Receipt × List Nat) :=
  match Header.decode buf with
  | (.error e, _) => .error e
  | (.ok rlp_head, b) =>
    if !rlp_head.list then .error .unexpectedString
    else
      let started_len := b.length
      match decodeBool b with
      | .error e => .error e
      | .ok (success, b1) =>
        match decodeUint 8 b1 with
        | .error e => .error e
        | .ok (cumulative_gas_used, b2) =>
          match decodeFixedBytes 256 b2 with
          | .error e => .error e
          | .ok (bloom, b3) =>
            match decodeLogs b3 with
            | .error e => .error e
            | .ok (logs, b4) =>
              let consumed := started_len - b4.length
              if consumed ≠ rlp_head.payload_length then
                .error (.listLengthMismatch rlp_head.payload_length consumed)
              else .ok (⟨tx_type, success, cumulative_gas_used, bloom, logs⟩, b4)

/-- The `Decodable::decode` implementation for `Receipt`, with the cursor
position reported in every outcome: peek at the first byte; below `0xc0`
decode the outer string header (advancing the cursor), read the discriminant
and decode a typed receipt; exactly `0xc0` fail (an empty list is never a
receipt); above `0xc0` decode a legacy receipt from the full cursor. -/
def Receipt.decode : List Nat → Except DecodeError Receipt × List Nat
  | [] => (.error (.custom ("cannot decode a receipt from empty bytes")), [])
  | rlp_type :: tail =>
    if rlp_type < 0xc0 then
      match Header.decode (rlp_type :: tail) with
      | (.error e, buf1) => (.error e, buf1)
      | (.ok _header, buf1) =>
        match buf1 with
        | [] => (.error (.custom ("typed receipt cannot be decoded from an empty slice")), buf1)
        | receipt_type :: buf2 =>
          if receipt_type = 0x01 then
            match Receipt.decode_receipt buf2 .eip2930 with
            | .error e => (.error e, buf2)
            | .ok (this, rest) => (.ok this, rest)
          else if receipt_type = 0x02 then
            match Receipt.decode_receipt buf2 .eip1559 with
            | .error e => (.error e, buf2)
            | .ok (this, rest) => (.ok this, rest)
          else (.error (.custom ("invalid receipt type")), receipt_type :: buf2)
    else if rlp_type = 0xc0 then
      (.error (.custom ("an empty list is not a valid receipt encoding")), rlp_type :: tail)
    else
      match Receipt.decode_receipt (rlp_type :: tail) .legacy with
      | .error e => (.error e, rlp_type :: tail)
      | .ok (this, rest) => (.ok this, rest)

/-- Wellformedness of a `Log` as guaranteed by its Rust type: a 20-byte
address, 32-byte topics, and data small enough for a `usize` length. -/
def Log.WF (l : Log) : Prop :=
  l.address.length = 20 ∧ (∀ t ∈ l.topics, t.length = 32) ∧ l.data.length < 2 ^ 64

instance (l : Log) : Decidable l.WF := by unfold Log.WF; infer_instance

/-- Wellformedness of the four receipt fields as guaranteed by their Rust
types: `cumulative_gas_used` fits in a `u64`, the bloom filter is exactly 256
bytes, and every log is wellformed. -/
def Receipt.WFfields (r : Receipt) : Prop :=
  r.cumulative_gas_used < 2 ^ 64 ∧ r.bloom.length = 256 ∧ ∀ l ∈ r.logs, l.WF

/-- Wellformedness of a receipt: wellformed fields, and an encoding small
enough for a `usize` byte count (as any value held in memory is). -/
def Receipt.WF (r : Receipt) : Prop :=
  r.WFfields ∧ r.encode_fields.length + 1 < 2 ^ 64

instance (r : Receipt) : Decidable r.WFfields := by unfold Receipt.WFfields; infer_instance

instance (r : Receipt) : Decidable r.WF := by unfold Receipt.WF; infer_instance

end RethPrimitives

namespace RethRlp

/-! Arithmetic facts about the minimal big-endian representation. -/

theorem beBytesF_zero (f : Nat) : beBytesF f 0 = [] := by
  cases f <;> simp [beBytesF]

theorem beBytesF_irrel (n : Nat) :
    ∀ f g, n ≤ f → n ≤ g → beBytesF f n = beBytesF g n := by
  induction n using Nat.strong_induction_on with
  | _ n ih =>
    intro f g hf hg
    rcases Nat.eq_zero_or_pos n with hn | hn
    · subst hn; rw [beBytesF_zero, beBytesF_zero]
    · obtain ⟨f, rfl⟩ : ∃ k, f = k + 1 := ⟨f - 1, by omega⟩
      obtain ⟨g, rfl⟩ : ∃ k, g = k + 1 := ⟨g - 1, by omega⟩
      have hdiv : n / 256 < n := Nat.div_lt_self hn (by omega)
      simp only [beBytesF, if_neg (Nat.pos_iff_ne_zero.mp hn)]
      rw [ih (n / 256) hdiv f g (by omega) (by omega)]

theorem beBytes_zero : beBytes 0 = [] := rfl

theorem beBytes_succ (n : Nat) (h : 0 < n) :
    beBytes n = beBytes (n / 256) ++ [n % 256] := by
  obtain ⟨m, rfl⟩ : ∃ m, n = m + 1 := ⟨n - 1, by omega⟩
  show beBytesF (m + 1) (m + 1) = _
  simp only [beBytesF, if_neg (by omega : ¬ m + 1 = 0)]
  rw [beBytesF_irrel ((m + 1) / 256) m ((m + 1) / 256)
    (by have := Nat.div_lt_self h (by omega : 1 < 256); omega) (le_refl _)]
  rfl

theorem beBytes_small (n : Nat) (h1 : 0 < n) (h2 : n < 256) : beBytes n = [n] := by
  rw [beBytes_succ n h1, Nat.div_eq_of_lt h2, beBytes_zero, Nat.mod_eq_of_lt h2]
  rfl

theorem beVal_append_single (A : List Nat) (b : Nat) :
    beVal (A ++ [b]) = beVal A * 256 + b := by
  simp [beVal, List.foldl_append]

theorem beVal_beBytes (n : Nat) : beVal (beBytes n) = n := by
  induction n using Nat.strong_induction_on with
  | _ n ih =>
    rcases Nat.eq_zero_or_pos n with hn | hn
    · subst hn; rfl
    · rw [beBytes_succ n hn, beVal_append_single,
        ih (n / 256) (Nat.div_lt_self hn (by omega))]
      omega

theorem beBytes_ne_nil (n : Nat) (h : 0 < n) : beBytes n ≠ [] := by
  rw [beBytes_succ n h]; simp

theorem beBytes_head?_ne_zero (n : Nat) (h : 0 < n) : (beBytes n).head? ≠ some 0 := by
  induction n using Nat.strong_induction_on with
  | _ n ih =>
    rcases Nat.lt_or_ge n 256 with hn | hn
    · rw [beBytes_small n h hn]; simp; omega
    · rw [beBytes_succ n h]
      have hpos : 0 < n / 256 := Nat.div_pos hn (by omega)
      obtain ⟨c, cs, hc⟩ := List.exists_cons_of_ne_nil (beBytes_ne_nil _ hpos)
      have := ih (n / 256) (Nat.div_lt_self h (by omega)) hpos
      rw [hc] at this ⊢
      simpa using this

theorem beBytes_length_le (n k : Nat) (h : n < 256 ^ k) : (beBytes n).length ≤ k := by
  induction k generalizing n with
  | zero =>
    have : n = 0 := by simpa using h
    subst this; simp [beBytes_zero]
  | succ k ih =>
    rcases Nat.eq_zero_or_pos n with hn | hn
    · subst hn; simp [beBytes_zero]
    · rw [beBytes_succ n hn]
      have : n / 256 < 256 ^ k := by
        rw [Nat.div_lt_iff_lt_mul (by omega : 0 < 256)]
        calc n < 256 ^ (k + 1) := h
        _ = 256 ^ k * 256 := by ring
      simpa using ih (n / 256) this

theorem beBytes_length_pos (n : Nat) (h : 0 < n) : 0 < (beBytes n).length := by
  have := beBytes_ne_nil n h
  cases hb : beBytes n with
  | nil => exact absurd hb this
  | cons c cs => simp

/-! Round-trip facts about the header codec. -/

theorem Header.encode_nonempty (h : Header) : h.encode ≠ [] := by
  unfold Header.encode
  rcases Nat.lt_or_ge h.payload_length 56 with hlt | hge
  · rw [if_pos hlt]; simp
  · rw [if_neg (by omega)]; simp

theorem Header.encode_list_short (n : Nat) (h : n < 56) :
    Header.encode ⟨true, n⟩ = [0xc0 + n] := by
  simp [Header.encode, h]

theorem Header.encode_list_long (n : Nat) (h : 56 ≤ n) :
    Header.encode ⟨true, n⟩ = (0xc0 + 55 + (beBytes n).length) :: beBytes n := by
  simp [Header.encode, Nat.not_lt.mpr h]

theorem Header.encode_str_short (n : Nat) (h : n < 56) :
    Header.encode ⟨false, n⟩ = [0x80 + n] := by
  simp [Header.encode, h]

theorem Header.encode_str_long (n : Nat) (h : 56 ≤ n) :
    Header.encode ⟨false, n⟩ = (0x80 + 55 + (beBytes n).length) :: beBytes n := by
  simp [Header.encode, Nat.not_lt.mpr h]

theorem Header.decode_list_encode (n : Nat) (X : List Nat) :
    Header.decode (Header.encode ⟨true, n⟩ ++ X) = (.ok ⟨true, n⟩, X) := by
  rcases Nat.lt_or_ge n 56 with h | h
  · rw [Header.encode_list_short n h]
    show Header.decode ((0xc0 + n) :: X) = _
    simp only [Header.decode]
    rw [if_neg (by omega : ¬ (0xc0 + n < 0x80)),
      if_neg (by omega : ¬ (0xc0 + n ≤ 0xb7)),
      if_neg (by omega : ¬ (0xc0 + n ≤ 0xbf)),
      if_pos (by omega : 0xc0 + n ≤ 0xf7)]
    have h2 : 0xc0 + n - 0xc0 = n := by omega
    rw [h2]
  · have hpos : 0 < n := by omega
    rw [Header.encode_list_long n h]
    show Header.decode ((0xc0 + 55 + (beBytes n).length) :: (beBytes n ++ X)) = _
    simp only [Header.decode]
    have hL : 0 < (beBytes n).length := beBytes_length_pos n hpos
    rw [if_neg (by omega : ¬ (0xc0 + 55 + (beBytes n).length < 0x80)),
      if_neg (by omega : ¬ (0xc0 + 55 + (beBytes n).length ≤ 0xb7)),
      if_neg (by omega : ¬ (0xc0 + 55 + (beBytes n).length ≤ 0xbf)),
      if_neg (by omega : ¬ (0xc0 + 55 + (beBytes n).length ≤ 0xf7))]
    have h2 : 0xc0 + 55 + (beBytes n).length - 0xf7 = (beBytes n).length := by omega
    rw [h2, if_neg (by simp : ¬ (beBytes n ++ X).length < (beBytes n).length),
      List.take_left, if_neg (beBytes_head?_ne_zero n hpos), beVal_beBytes,
      if_neg (by omega : ¬ n < 56), List.drop_left]

theorem Header.decode_str_encode (n : Nat) (X : List Nat) (h1 : n ≠ 1) (h2 : n < 2 ^ 64) :
    Header.decode (Header.encode ⟨false, n⟩ ++ X) = (.ok ⟨false, n⟩, X) := by
  rcases Nat.lt_or_ge n 56 with h | h
  · rw [Header.encode_str_short n h]
    show Header.decode ((0x80 + n) :: X) = _
    simp only [Header.decode]
    rw [if_neg (by omega : ¬ (0x80 + n < 0x80)),
      if_pos (by omega : 0x80 + n ≤ 0xb7)]
    have h3 : 0x80 + n - 0x80 = n := by omega
    rw [h3, if_neg h1]
  · have hpos : 0 < n := by omega
    have hL : 0 < (beBytes n).length := beBytes_length_pos n hpos
    have hL8 : (beBytes n).length ≤ 8 := beBytes_length_le n 8 (by norm_num at h2 ⊢; omega)
    rw [Header.encode_str_long n h]
    show Header.decode ((0x80 + 55 + (beBytes n).length) :: (beBytes n ++ X)) = _
    simp only [Header.decode]
    rw [if_neg (by omega : ¬ (0x80 + 55 + (beBytes n).length < 0x80)),
      if_neg (by omega : ¬ (0x80 + 55 + (beBytes n).length ≤ 0xb7)),
      if_pos (by omega : 0x80 + 55 + (beBytes n).length ≤ 0xbf)]
    have h3 : 0x80 + 55 + (beBytes n).length - 0xb7 = (beBytes n).length := by omega
    rw [h3, if_neg (by simp : ¬ (beBytes n ++ X).length < (beBytes n).length),
      List.take_left, if_neg (beBytes_head?_ne_zero n hpos), beVal_beBytes,
      if_neg (by omega : ¬ n < 56), List.drop_left]

theorem Header.decode_str_one (c : Nat) (X : List Nat) (hc : 0x80 ≤ c) :
    Header.decode (Header.encode ⟨false, 1⟩ ++ c :: X) = (.ok ⟨false, 1⟩, c :: X) := by
  have e1 : Header.encode ⟨false, 1⟩ = [0x81] := by simp [Header.encode]
  rw [e1]
  show Header.decode (0x81 :: c :: X) = _
  simp only [Header.decode]
  norm_num [Nat.not_lt.mpr hc]

theorem Header.decode_single (c : Nat) (X : List Nat) (hc : c < 0x80) :
    Header.decode (c :: X) = (.ok ⟨false, 1⟩, c :: X) := by
  simp only [Header.decode]
  rw [if_pos hc]

end RethRlp

namespace RethRlp

/-! Round-trip facts about the primitive value codecs. -/

theorem rlpStr_of_length_ne_one (s : List Nat) (h : s.length ≠ 1) :
    rlpStr s = Header.encode ⟨false, s.length⟩ ++ s := by
  match s with
  | [] => rfl
  | [b] => simp at h
  | a :: b :: t => rfl

theorem rlpStr_ne_nil (s : List Nat) : rlpStr s ≠ [] := by
  match s with
  | [] => simp [rlpStr, Header.encode]
  | [b] =>
    by_cases hb : b < 0x80
    · simp [rlpStr, hb]
    · simp [rlpStr, hb, Header.encode]
  | a :: b :: t =>
    have := Header.encode_nonempty ⟨false, (a :: b :: t).length⟩
    simp [rlpStr]

theorem Header.decode_str_zero (X : List Nat) :
    Header.decode (0x80 :: X) = (.ok ⟨false, 0⟩, X) := by
  simp only [Header.decode]
  norm_num

theorem decodeBytes_encode (s X : List Nat) (hs : s.length < 2 ^ 64) :
    decodeBytes (rlpStr s ++ X) = .ok (s, X) := by
  rcases eq_or_ne s.length 1 with h1 | h1
  · obtain ⟨b, rfl⟩ : ∃ b, s = [b] := by
      cases s with
      | nil => simp at h1
      | cons a t => cases t with
        | nil => exact ⟨a, rfl⟩
        | cons c u => simp at h1
    by_cases hb : b < 0x80
    · have e1 : rlpStr [b] = [b] := by simp [rlpStr, hb]
      rw [e1]
      show decodeBytes (b :: X) = _
      simp only [decodeBytes, Header.decode_single b X hb]
      norm_num [List.take, List.drop]
    · have e1 : rlpStr [b] = Header.encode ⟨false, 1⟩ ++ [b] := by simp [rlpStr, hb]
      rw [e1, List.append_assoc]
      show decodeBytes (Header.encode ⟨false, 1⟩ ++ (b :: X)) = _
      simp only [decodeBytes, Header.decode_str_one b X (by omega)]
      norm_num [List.take, List.drop]
  · rw [rlpStr_of_length_ne_one s h1, List.append_assoc]
    simp only [decodeBytes, Header.decode_str_encode s.length (s ++ X) h1 hs]
    have hlen : ¬ (s ++ X).length < s.length := by simp
    simp [hlen, List.take_left, List.drop_left]

theorem decodeFixedBytes_encode (n : Nat) (s X : List Nat) (hlen : s.length = n)
    (hn1 : n ≠ 1) (hn : n < 2 ^ 64) :
    decodeFixedBytes n (rlpStr s ++ X) = .ok (s, X) := by
  subst hlen
  rw [rlpStr_of_length_ne_one s hn1, List.append_assoc]
  simp only [decodeFixedBytes, Header.decode_str_encode s.length (s ++ X) hn1 hn]
  have hlen2 : ¬ (s ++ X).length < s.length := by simp
  simp [hlen2, List.take_left, List.drop_left]

end RethRlp

namespace RethRlp

theorem beVal_single (b : Nat) : beVal [b] = b := by
  simp [beVal]

theorem beBytes_length_two_le (n : Nat) (h : 256 ≤ n) : 2 ≤ (beBytes n).length := by
  rw [beBytes_succ n (by omega)]
  have : 0 < (beBytes (n / 256)).length :=
    beBytes_length_pos _ (Nat.div_pos h (by omega))
  simp
  omega

theorem decodeUint_encode (m n : Nat) (X : List Nat) (hn : n < 256 ^ m) (hm : m ≤ 55) :
    decodeUint m (rlpUint n ++ X) = .ok (n, X) := by
  have hm1 : 0 < n → 1 ≤ m := by
    intro hpos
    by_contra hc
    have : m = 0 := by omega
    subst this
    simp at hn
    omega
  rcases Nat.eq_zero_or_pos n with hn0 | hn0
  · subst hn0
    have e1 : rlpUint 0 = [0x80] := rfl
    rw [e1]
    show decodeUint m (0x80 :: X) = _
    simp only [decodeUint, Header.decode_str_zero]
    norm_num [List.take, List.drop, beVal]
    simp
  · rcases Nat.lt_or_ge n 256 with h256 | h256
    · have e0 : beBytes n = [n] := beBytes_small n hn0 h256
      by_cases hb : n < 0x80
      · have e1 : rlpUint n = [n] := by rw [rlpUint, e0]; simp [rlpStr, hb]
        rw [e1]
        show decodeUint m (n :: X) = _
        simp only [decodeUint, Header.decode_single n X hb]
        have : ¬ m < 1 := by omega
        norm_num [List.take, List.drop, this, beVal_single]
        omega
      · have e1 : rlpUint n = Header.encode ⟨false, 1⟩ ++ [n] := by
          rw [rlpUint, e0]; simp [rlpStr, hb]
        rw [e1, List.append_assoc]
        show decodeUint m (Header.encode ⟨false, 1⟩ ++ (n :: X)) = _
        simp only [decodeUint, Header.decode_str_one n X (by omega)]
        have : ¬ m < 1 := by omega
        norm_num [List.take, List.drop, this, beVal_single]
        omega
    · have hL2 : 2 ≤ (beBytes n).length := beBytes_length_two_le n h256
      have hLm : (beBytes n).length ≤ m := beBytes_length_le n m hn
      have e1 : rlpUint n = Header.encode ⟨false, (beBytes n).length⟩ ++ beBytes n := by
        rw [rlpUint, rlpStr_of_length_ne_one (beBytes n) (by omega)]
      rw [e1, List.append_assoc]
      simp only [decodeUint,
        Header.decode_str_encode (beBytes n).length (beBytes n ++ X) (by omega)
          (by omega)]
      have hlen : ¬ (beBytes n ++ X).length < (beBytes n).length := by simp
      have hover : ¬ m < (beBytes n).length := by omega
      simp [hover, hlen, List.take_left, List.drop_left,
        beBytes_head?_ne_zero n hn0, beVal_beBytes]

theorem decodeBool_encode (b : Bool) (X : List Nat) :
    decodeBool (rlpBool b ++ X) = .ok (b, X) := by
  cases b
  · have h := decodeUint_encode 1 0 X (by norm_num) (by norm_num)
    show decodeBool (rlpUint 0 ++ X) = _
    simp [decodeBool, h]
  · have h := decodeUint_encode 1 1 X (by norm_num) (by norm_num)
    show decodeBool (rlpUint 1 ++ X) = _
    simp [decodeBool, h]

end RethRlp

namespace RethRlp

/-! Round-trip facts about the list codecs. -/

theorem decodeElems_encode {α : Type} (dec : List Nat → Except DecodeError (α × List Nat))
    (enc : α → List Nat) (vs : List α) :
    (∀ v ∈ vs, ∀ Y, dec (enc v ++ Y) = .ok (v, Y)) →
    (∀ v ∈ vs, enc v ≠ []) →
    ∀ fuel, (vs.map enc).flatten.length ≤ fuel →
    decodeElems dec fuel (vs.map enc).flatten = .ok vs := by
  induction vs with
  | nil =>
    intro _ _ fuel _
    cases fuel <;> simp [decodeElems]
  | cons v vs ih =>
    intro hrt hne fuel hf
    have hv : enc v ≠ [] := hne v (by simp)
    obtain ⟨c, cs, hc⟩ := List.exists_cons_of_ne_nil hv
    simp only [List.map_cons, List.flatten_cons] at hf ⊢
    obtain ⟨k, rfl⟩ : ∃ k, fuel = k + 1 := by
      refine ⟨fuel - 1, ?_⟩
      have h0 : 0 < (enc v ++ (vs.map enc).flatten).length := by simp [hc]
      omega
    have hshape : enc v ++ (vs.map enc).flatten = c :: (cs ++ (vs.map enc).flatten) := by
      simp [hc]
    rw [hshape]
    show decodeElems dec (k + 1) (c :: (cs ++ (vs.map enc).flatten)) = _
    simp only [decodeElems]
    rw [← hshape, hrt v (by simp) ((vs.map enc).flatten)]
    have hk : (vs.map enc).flatten.length ≤ k := by
      have h1 : 1 ≤ (enc v).length := by rw [hc]; simp
      rw [List.length_append] at hf
      omega
    have hih := ih (fun w hw Y => hrt w (by simp [hw]) Y) (fun w hw => hne w (by simp [hw])) k hk
    simp [hih]

theorem decodeVec_encode {α : Type} (dec : List Nat → Except DecodeError (α × List Nat))
    (enc : α → List Nat) (vs : List α) (X : List Nat)
    (hrt : ∀ v ∈ vs, ∀ Y, dec (enc v ++ Y) = .ok (v, Y))
    (hne : ∀ v ∈ vs, enc v ≠ []) :
    decodeVec dec (encList (vs.map enc).flatten ++ X) = .ok (vs, X) := by
  unfold encList
  rw [List.append_assoc]
  simp only [decodeVec, Header.decode_list_encode]
  have h1 : ¬ ((vs.map enc).flatten ++ X).length < (vs.map enc).flatten.length := by simp
  have hd := decodeElems_encode dec enc vs hrt hne (vs.map enc).flatten.length (le_refl _)
  simp only [List.length_flatten, List.map_map] at hd
  simp [h1, List.take_left, List.drop_left, hd]

end RethRlp

namespace RethRlp

theorem encList_ne_nil (P : List Nat) : encList P ≠ [] := by
  unfold encList
  intro h
  rcases List.append_eq_nil.mp h with ⟨h1, _⟩
  exact Header.encode_nonempty _ h1

end RethRlp

namespace RethPrimitives

open RethRlp

theorem Log.encode_ne_nil (l : Log) : l.encode ≠ [] := encList_ne_nil _

theorem Log.decode_encode (l : Log) (X : List Nat) (hl : l.WF) :
    Log.decode (Log.encode l ++ X) = .ok (l, X) := by
  obtain ⟨ha, ht, hd⟩ := hl
  have hA : ∀ Y, decodeFixedBytes 20 (rlpStr l.address ++ Y) = .ok (l.address, Y) :=
    fun Y => decodeFixedBytes_encode 20 l.address Y ha (by norm_num) (by norm_num)
  have hT : ∀ Y, decodeVec (decodeFixedBytes 32) (encList ((l.topics.map rlpStr).flatten) ++ Y)
      = .ok (l.topics, Y) :=
    fun Y => decodeVec_encode (decodeFixedBytes 32) rlpStr l.topics Y
      (fun t ht' Z => decodeFixedBytes_encode 32 t Z (ht t ht') (by norm_num) (by norm_num))
      (fun t _ => rlpStr_ne_nil t)
  have hD : ∀ Y, decodeBytes (rlpStr l.data ++ Y) = .ok (l.data, Y) :=
    fun Y => decodeBytes_encode l.data Y hd
  have e1 : Log.encode l ++ X =
      Header.encode ⟨true, (rlpStr l.address ++ encList ((l.topics.map rlpStr).flatten) ++
          rlpStr l.data).length⟩ ++
        ((rlpStr l.address ++ encList ((l.topics.map rlpStr).flatten) ++ rlpStr l.data) ++ X) := by
    simp [Log.encode, encList, List.append_assoc]
  rw [e1]
  simp [Log.decode, Header.decode_list_encode, hA, hT, hD, List.append_assoc,
    List.length_append, Nat.add_sub_cancel]
  omega

theorem decodeLogs_encode (ls : List Log) (X : List Nat) (h : ∀ l ∈ ls, l.WF) :
    decodeLogs (encLogs ls ++ X) = .ok (ls, X) := by
  unfold decodeLogs encLogs
  exact decodeVec_encode Log.decode Log.encode ls X
    (fun l hl Y => Log.decode_encode l Y (h l hl))
    (fun l _ => Log.encode_ne_nil l)

end RethPrimitives

namespace RethPrimitives

open RethRlp

theorem Receipt.decode_receipt_encode (r : Receipt) (tt : TxType) (X : List Nat)
    (h : r.WFfields) :
    Receipt.decode_receipt (r.encode_fields ++ X) tt =
      .ok (⟨tt, r.success, r.cumulative_gas_used, r.bloom, r.logs⟩, X) := by
  obtain ⟨hg, hb, hl⟩ := h
  have hS : ∀ Y, decodeBool (rlpBool r.success ++ Y) = .ok (r.success, Y) :=
    fun Y => decodeBool_encode r.success Y
  have hU : ∀ Y, decodeUint 8 (rlpUint r.cumulative_gas_used ++ Y)
      = .ok (r.cumulative_gas_used, Y) :=
    fun Y => decodeUint_encode 8 r.cumulative_gas_used Y (by norm_num at hg ⊢; omega) (by norm_num)
  have hB : ∀ Y, decodeFixedBytes 256 (rlpStr r.bloom ++ Y) = .ok (r.bloom, Y) :=
    fun Y => decodeFixedBytes_encode 256 r.bloom Y hb (by norm_num) (by norm_num)
  have hL : ∀ Y, decodeLogs (encLogs r.logs ++ Y) = .ok (r.logs, Y) :=
    fun Y => decodeLogs_encode r.logs Y hl
  have e1 : r.encode_fields ++ X =
      Header.encode ⟨true, (rlpBool r.success ++ rlpUint r.cumulative_gas_used ++
          rlpStr r.bloom ++ encLogs r.logs).length⟩ ++
        ((rlpBool r.success ++ rlpUint r.cumulative_gas_used ++
          rlpStr r.bloom ++ encLogs r.logs) ++ X) := by
    simp [Receipt.encode_fields, Receipt.receipt_rlp_header, List.append_assoc,
      List.length_append, Nat.add_assoc]
  rw [e1]
  simp [Receipt.decode_receipt, Header.decode_list_encode, hS, hU, hB, hL,
    List.append_assoc, List.length_append, Nat.add_sub_cancel]
  omega

end RethPrimitives

namespace RethRlp

theorem Header.encode_head_list (n : Nat) (hn : 0 < n) :
    ∃ b0 bs, Header.encode ⟨true, n⟩ = b0 :: bs ∧ 0xc0 < b0 := by
  rcases Nat.lt_or_ge n 56 with h | h
  · exact ⟨0xc0 + n, [], by rw [Header.encode_list_short n h], by omega⟩
  · refine ⟨0xc0 + 55 + (beBytes n).length, beBytes n, by rw [Header.encode_list_long n h], ?_⟩
    have := beBytes_length_pos n (by omega)
    omega

theorem Header.encode_head_str (n : Nat) (hn : n < 2 ^ 64) :
    ∃ b0 bs, Header.encode ⟨false, n⟩ = b0 :: bs ∧ 0x80 ≤ b0 ∧ b0 < 0xc0 := by
  rcases Nat.lt_or_ge n 56 with h | h
  · exact ⟨0x80 + n, [], by rw [Header.encode_str_short n h], by omega, by omega⟩
  · refine ⟨0x80 + 55 + (beBytes n).length, beBytes n, by rw [Header.encode_str_long n h],
      by omega, ?_⟩
    have h8 : (beBytes n).length ≤ 8 := beBytes_length_le n 8 (by norm_num at hn ⊢; omega)
    omega

end RethRlp

namespace RethPrimitives

open RethRlp

theorem rlpBool_length (b : Bool) : (rlpBool b).length = 1 := by cases b <;> rfl

theorem Receipt.payload_pos (r : Receipt) : 0 < r.receipt_rlp_header.payload_length := by
  have h1 : (rlpBool r.success).length = 1 := rlpBool_length r.success
  unfold Receipt.receipt_rlp_header
  simp only []
  omega

theorem Receipt.encode_fields_head (r : Receipt) :
    ∃ b0 bs, r.encode_fields = b0 :: bs ∧ 0xc0 < b0 := by
  obtain ⟨b0, bs, he, hb0⟩ :=
    Header.encode_head_list r.receipt_rlp_header.payload_length r.payload_pos
  have e0 : (r.receipt_rlp_header).encode =
      Header.encode ⟨true, r.receipt_rlp_header.payload_length⟩ := rfl
  refine ⟨b0, bs ++ (rlpBool r.success ++ rlpUint r.cumulative_gas_used ++
    rlpStr r.bloom ++ encLogs r.logs), ?_, hb0⟩
  unfold Receipt.encode_fields
  rw [e0, he]
  simp [List.append_assoc]

theorem Receipt.encode_fields_ne_nil (r : Receipt) : r.encode_fields ≠ [] := by
  obtain ⟨b0, bs, he, _⟩ := r.encode_fields_head
  rw [he]
  simp

theorem Receipt.decode_of_encode (r : Receipt) (h : r.WF) :
    Receipt.decode (Receipt.encode r) = (.ok r, []) := by
  obtain ⟨hf, hsize⟩ := h
  obtain ⟨tt, s, g, bl, lg⟩ := r
  have hdr : ∀ tt', Receipt.decode_receipt
      (Receipt.encode_fields ⟨tt, s, g, bl, lg⟩) tt' = .ok (⟨tt', s, g, bl, lg⟩, []) := by
    intro tt'
    have := Receipt.decode_receipt_encode ⟨tt, s, g, bl, lg⟩ tt' [] hf
    rwa [List.append_nil] at this
  cases tt with
  | legacy =>
    have henc : Receipt.encode ⟨.legacy, s, g, bl, lg⟩ =
        Receipt.encode_fields ⟨.legacy, s, g, bl, lg⟩ := rfl
    obtain ⟨b0, bs, he, hb0⟩ := Receipt.encode_fields_head ⟨.legacy, s, g, bl, lg⟩
    rw [henc, he]
    simp only [Receipt.decode]
    rw [if_neg (by omega : ¬ b0 < 0xc0), if_neg (by omega : ¬ b0 = 0xc0), ← he, hdr .legacy]
  | eip2930 =>
    have henc : Receipt.encode ⟨.eip2930, s, g, bl, lg⟩ =
        Header.encode ⟨false, (Receipt.encode_fields ⟨.eip2930, s, g, bl, lg⟩).length + 1⟩ ++
          0x01 :: Receipt.encode_fields ⟨.eip2930, s, g, bl, lg⟩ := by
      simp [Receipt.encode, Receipt.encode_inner]
    have hne := Receipt.encode_fields_ne_nil ⟨.eip2930, s, g, bl, lg⟩
    have hlen1 : 1 ≤ (Receipt.encode_fields ⟨.eip2930, s, g, bl, lg⟩).length := by
      cases hc : Receipt.encode_fields ⟨.eip2930, s, g, bl, lg⟩ with
      | nil => exact absurd hc hne
      | cons c cs => simp [hc]
    rw [henc]
    obtain ⟨b0, bs, he, hb0, hb0c⟩ := Header.encode_head_str
      ((Receipt.encode_fields ⟨.eip2930, s, g, bl, lg⟩).length + 1)
      (by omega)
    have hhd := Header.decode_str_encode
      ((Receipt.encode_fields ⟨.eip2930, s, g, bl, lg⟩).length + 1)
      (0x01 :: Receipt.encode_fields ⟨.eip2930, s, g, bl, lg⟩)
      (by omega) (by omega)
    rw [he] at hhd ⊢
    rw [List.cons_append]
    simp only [Receipt.decode]
    rw [if_pos (by omega : b0 < 0xc0), ← List.cons_append, hhd]
    simp [hdr .eip2930]
  | eip1559 =>
    have henc : Receipt.encode ⟨.eip1559, s, g, bl, lg⟩ =
        Header.encode ⟨false, (Receipt.encode_fields ⟨.eip1559, s, g, bl, lg⟩).length + 1⟩ ++
          0x02 :: Receipt.encode_fields ⟨.eip1559, s, g, bl, lg⟩ := by
      simp [Receipt.encode, Receipt.encode_inner]
    have hne := Receipt.encode_fields_ne_nil ⟨.eip1559, s, g, bl, lg⟩
    have hlen1 : 1 ≤ (Receipt.encode_fields ⟨.eip1559, s, g, bl, lg⟩).length := by
      cases hc : Receipt.encode_fields ⟨.eip1559, s, g, bl, lg⟩ with
      | nil => exact absurd hc hne
      | cons c cs => simp [hc]
    rw [henc]
    obtain ⟨b0, bs, he, hb0, hb0c⟩ := Header.encode_head_str
      ((Receipt.encode_fields ⟨.eip1559, s, g, bl, lg⟩).length + 1)
      (by omega)
    have hhd := Header.decode_str_encode
      ((Receipt.encode_fields ⟨.eip1559, s, g, bl, lg⟩).length + 1)
      (0x02 :: Receipt.encode_fields ⟨.eip1559, s, g, bl, lg⟩)
      (by omega) (by omega)
    rw [he] at hhd ⊢
    rw [List.cons_append]
    simp only [Receipt.decode]
    rw [if_pos (by omega : b0 < 0xc0), ← List.cons_append, hhd]
    simp [hdr .eip1559]

end RethPrimitives

namespace RethPrimitives

open RethRlp

theorem Receipt.decode_receipt_tag (b : List Nat) (tt : TxType) (r : Receipt) (r4 : List Nat)
    (h : Receipt.decode_receipt b tt = .ok (r, r4)) : r.tx_type = tt := by
  unfold Receipt.decode_receipt at h
  cases hh : Header.decode b with
  | mk res rest0 =>
    rw [hh] at h
    cases res with
    | error e => simp at h
    | ok hd =>
      simp only [] at h
      by_cases hl : (!hd.list) = true
      · rw [if_pos hl] at h; simp at h
      · rw [if_neg hl] at h
        cases h1 : decodeBool rest0 with
        | error e => rw [h1] at h; simp at h
        | ok p1 =>
          obtain ⟨s, b1⟩ := p1
          rw [h1] at h
          simp only [] at h
          cases h2 : decodeUint 8 b1 with
          | error e => rw [h2] at h; simp at h
          | ok p2 =>
            obtain ⟨g, b2⟩ := p2
            rw [h2] at h
            simp only [] at h
            cases h3 : decodeFixedBytes 256 b2 with
            | error e => rw [h3] at h; simp at h
            | ok p3 =>
              obtain ⟨bl, b3⟩ := p3
              rw [h3] at h
              simp only [] at h
              cases h4 : decodeLogs b3 with
              | error e => rw [h4] at h; simp at h
              | ok p4 =>
                obtain ⟨lg, b4⟩ := p4
                rw [h4] at h
                simp only [] at h
                by_cases hc : rest0.length - b4.length ≠ hd.payload_length
                · rw [if_pos hc] at h; simp at h
                · rw [if_neg hc] at h
                  simp only [Except.ok.injEq, Prod.mk.injEq] at h
                  rw [← h.1]

theorem Receipt.decode_receipt_short (tt : TxType) (n : Nat) (F : List Nat)
    (hF : F.length < n) :
    ∃ e, Receipt.decode_receipt (Header.encode ⟨true, n⟩ ++ F) tt = .error e := by
  simp only [Receipt.decode_receipt, Header.decode_list_encode]
  cases h1 : decodeBool F with
  | error e => exact ⟨e, by simp [h1]⟩
  | ok p1 =>
    obtain ⟨s, b1⟩ := p1
    cases h2 : decodeUint 8 b1 with
    | error e => exact ⟨e, by simp [h1, h2]⟩
    | ok p2 =>
      obtain ⟨g, b2⟩ := p2
      cases h3 : decodeFixedBytes 256 b2 with
      | error e => exact ⟨e, by simp [h1, h2, h3]⟩
      | ok p3 =>
        obtain ⟨bl, b3⟩ := p3
        cases h4 : decodeLogs b3 with
        | error e => exact ⟨e, by simp [h1, h2, h3, h4]⟩
        | ok p4 =>
          obtain ⟨lg, b4⟩ := p4
          refine ⟨.listLengthMismatch n (F.length - b4.length), ?_⟩
          have hne : F.length - b4.length ≠ n := by omega
          simp [h1, h2, h3, h4, hne]

end RethPrimitives

namespace RethPrimitives

open RethRlp

theorem Receipt.encode_fields_split (r : Receipt) :
    r.encode_fields = Header.encode ⟨true, r.receipt_rlp_header.payload_length⟩ ++
      (rlpBool r.success ++ (rlpUint r.cumulative_gas_used ++
        (rlpStr r.bloom ++ encLogs r.logs))) := by
  have e0 : (r.receipt_rlp_header).encode
      = Header.encode ⟨true, r.receipt_rlp_header.payload_length⟩ := rfl
  unfold Receipt.encode_fields
  rw [e0]
  simp [List.append_assoc]

theorem Receipt.fields_concat_length (r : Receipt) :
    (rlpBool r.success ++ (rlpUint r.cumulative_gas_used ++
      (rlpStr r.bloom ++ encLogs r.logs))).length = r.receipt_rlp_header.payload_length := by
  simp [Receipt.receipt_rlp_header, List.length_append, Nat.add_assoc]

theorem Receipt.fields_concat_ne_nil (r : Receipt) :
    rlpBool r.success ++ (rlpUint r.cumulative_gas_used ++
      (rlpStr r.bloom ++ encLogs r.logs)) ≠ [] := by
  have h1 := rlpBool_length r.success
  intro h
  have h2 := congrArg List.length h
  simp only [List.length_append, List.length_nil] at h2
  omega

theorem Receipt.decode_receipt_fields_dropLast (r : Receipt) (tt : TxType) :
    ∃ e, Receipt.decode_receipt (r.encode_fields.dropLast) tt = .error e := by
  rw [r.encode_fields_split, List.dropLast_append_of_ne_nil _ r.fields_concat_ne_nil]
  apply Receipt.decode_receipt_short
  have h1 := r.fields_concat_length
  have hF1 : 0 < (rlpBool r.success ++ (rlpUint r.cumulative_gas_used ++
      (rlpStr r.bloom ++ encLogs r.logs))).length := by
    cases hF : rlpBool r.success ++ (rlpUint r.cumulative_gas_used ++
        (rlpStr r.bloom ++ encLogs r.logs)) with
    | nil => exact absurd hF r.fields_concat_ne_nil
    | cons c cs => simp [hF]
  rw [List.length_dropLast]
  omega

theorem Receipt.encode_fields_length_pos (r : Receipt) : 0 < r.encode_fields.length := by
  cases hE : r.encode_fields with
  | nil => exact absurd hE r.encode_fields_ne_nil
  | cons c cs => simp [hE]

theorem Receipt.decode_truncated (r : Receipt) (h : r.WF) :
    ∃ e, (Receipt.decode ((Receipt.encode r).dropLast)).1 = .error e := by
  obtain ⟨hf, hsize⟩ := h
  have hFne := r.fields_concat_ne_nil
  have hFlen := r.fields_concat_length
  have hpl := r.payload_pos
  have hEFpos := r.encode_fields_length_pos
  rcases htt : r.tx_type with _ | _ | _
  case legacy =>
    have henc : Receipt.encode r = r.encode_fields := by
      simp [Receipt.encode, Receipt.encode_inner, htt]
    rw [henc, r.encode_fields_split, List.dropLast_append_of_ne_nil _ hFne]
    obtain ⟨b0, bs, he, hb0⟩ :=
      Header.encode_head_list r.receipt_rlp_header.payload_length hpl
    obtain ⟨e, he2⟩ := Receipt.decode_receipt_short .legacy
      r.receipt_rlp_header.payload_length
      ((rlpBool r.success ++ (rlpUint r.cumulative_gas_used ++
        (rlpStr r.bloom ++ encLogs r.logs))).dropLast)
      (by
        have hF1 : 0 < (rlpBool r.success ++ (rlpUint r.cumulative_gas_used ++
            (rlpStr r.bloom ++ encLogs r.logs))).length := by
          cases hF : rlpBool r.success ++ (rlpUint r.cumulative_gas_used ++
              (rlpStr r.bloom ++ encLogs r.logs)) with
          | nil => exact absurd hF hFne
          | cons c cs => simp [hF]
        rw [List.length_dropLast]
        omega)
    refine ⟨e, ?_⟩
    rw [he, List.cons_append]
    simp only [Receipt.decode]
    rw [if_neg (by omega : ¬ b0 < 0xc0), if_neg (by omega : ¬ b0 = 0xc0),
      ← List.cons_append, ← he, he2]
  case eip2930 =>
    have henc : Receipt.encode r =
        Header.encode ⟨false, r.encode_fields.length + 1⟩ ++ 0x01 :: r.encode_fields := by
      simp [Receipt.encode, Receipt.encode_inner, htt]
    rw [henc]
    have hstep : (Header.encode ⟨false, r.encode_fields.length + 1⟩ ++
        0x01 :: r.encode_fields).dropLast
        = Header.encode ⟨false, r.encode_fields.length + 1⟩ ++
          0x01 :: r.encode_fields.dropLast := by
      rw [List.dropLast_append_of_ne_nil _ (by simp : (0x01 :: r.encode_fields) ≠ [])]
      have h2 := List.dropLast_append_of_ne_nil [0x01] r.encode_fields_ne_nil
      simpa using h2
    rw [hstep]
    obtain ⟨e, he2⟩ := r.decode_receipt_fields_dropLast .eip2930
    obtain ⟨b0, bs, he, hb0, hb0c⟩ :=
      Header.encode_head_str (r.encode_fields.length + 1) (by omega)
    have hhd := Header.decode_str_encode (r.encode_fields.length + 1)
      (0x01 :: r.encode_fields.dropLast) (by omega) (by omega)
    rw [he] at hhd
    refine ⟨e, ?_⟩
    rw [he, List.cons_append]
    simp only [Receipt.decode]
    rw [if_pos (by omega : b0 < 0xc0), ← List.cons_append, hhd]
    simp [he2]
  case eip1559 =>
    have henc : Receipt.encode r =
        Header.encode ⟨false, r.encode_fields.length + 1⟩ ++ 0x02 :: r.encode_fields := by
      simp [Receipt.encode, Receipt.encode_inner, htt]
    rw [henc]
    have hstep : (Header.encode ⟨false, r.encode_fields.length + 1⟩ ++
        0x02 :: r.encode_fields).dropLast
        = Header.encode ⟨false, r.encode_fields.length + 1⟩ ++
          0x02 :: r.encode_fields.dropLast := by
      rw [List.dropLast_append_of_ne_nil _ (by simp : (0x02 :: r.encode_fields) ≠ [])]
      have h2 := List.dropLast_append_of_ne_nil [0x02] r.encode_fields_ne_nil
      simpa using h2
    rw [hstep]
    obtain ⟨e, he2⟩ := r.decode_receipt_fields_dropLast .eip1559
    obtain ⟨b0, bs, he, hb0, hb0c⟩ :=
      Header.encode_head_str (r.encode_fields.length + 1) (by omega)
    have hhd := Header.decode_str_encode (r.encode_fields.length + 1)
      (0x02 :: r.encode_fields.dropLast) (by omega) (by omega)
    rw [he] at hhd
    refine ⟨e, ?_⟩
    rw [he, List.cons_append]
    simp only [Receipt.decode]
    rw [if_pos (by omega : b0 < 0xc0), ← List.cons_append, hhd]
    simp [he2]

end RethPrimitives

namespace RethPrimitives

open RethRlp

/-- The log of the EIP-2481 reference test vector: 20-byte address ending in
`0x11`, two 32-byte topics ending in `0xdead` and `0xbeef`, and the three
data bytes `0x01 0x00 0xff`. -/
def referenceLog : Log where
  address := List.replicate 19 0 ++ [0x11]
  topics := [List.replicate 30 0 ++ [0xde, 0xad], List.replicate 30 0 ++ [0xbe, 0xef]]
  data := [0x01, 0x00, 0xff]

/-- The legacy receipt of the EIP-2481 reference test vector. -/
def referenceReceipt : Receipt where
  tx_type := .legacy
  success := false
  cumulative_gas_used := 1
  bloom := List.replicate 256 0
  logs := [referenceLog]

/-- The byte sequence the reference receipt is expected to encode to
(the test vector of `tests::encode_legacy_receipt`). -/
def referenceVectorBytes : List Nat :=
  [0xf9, 0x01, 0x66, 0x80, 0x01, 0xb9, 0x01, 0x00] ++ List.replicate 256 0 ++
  [0xf8, 0x5f, 0xf8, 0x5d, 0x94] ++ List.replicate 19 0 ++ [0x11] ++
  [0xf8, 0x42, 0xa0] ++ List.replicate 30 0 ++ [0xde, 0xad] ++
  [0xa0] ++ List.replicate 30 0 ++ [0xbe, 0xef] ++ [0x83, 0x01, 0x00, 0xff]

/-- The reference receipt retyped as an EIP-2930 receipt. -/
def exampleReceipt2930 : Receipt := { referenceReceipt with tx_type := .eip2930 }

/-- A minimal EIP-1559 receipt: failed, no gas, empty bloom, no logs. -/
def exampleReceipt1559min : Receipt where
  tx_type := .eip1559
  success := false
  cumulative_gas_used := 0
  bloom := List.replicate 256 0
  logs := []

/-- The minimal receipt retagged as EIP-2930 (used for the outer-header
validation scenario). -/
def exampleReceipt2930min : Receipt := { exampleReceipt1559min with tx_type := .eip2930 }

end RethPrimitives

namespace RethPrimitives

open RethRlp

/-- C1: the length-honesty claim fails on the code.  For the minimal
EIP-1559 receipt the inner list is 265 bytes, so the spec's
`length_of_length(p) + p` with `p = 266` is `269` — exactly what
`Receipt.encode` writes — but `Receipt.length` overwrites its accumulator
with `length_of_length (p)` alone and returns `3`. -/
theorem receipt_length_typed_bug :
    Receipt.length exampleReceipt1559min = 3 ∧
    (Receipt.encode exampleReceipt1559min).length = 269 ∧
    length_of_length 266 + 266 = 269 := by
  refine ⟨by decide, by decide, by decide⟩

/-- C2: round-trip: decoding the bytes produced by encoding any wellformed
receipt (any tx_type, any logs, any gas) succeeds, consumes the whole
buffer, and returns a structurally equal receipt. -/
theorem receipt_decode_encode_roundtrip (r : Receipt) (h : r.WF) :
    Receipt.decode (Receipt.encode r) = (.ok r, []) :=
  Receipt.decode_of_encode r h

/-- Witness for C2 at the reference legacy receipt, its EIP-2930 retyping,
and a minimal EIP-1559 receipt. -/
theorem receipt_decode_encode_roundtrip_witness :
    (Receipt.WF referenceReceipt ∧
      Receipt.decode (Receipt.encode referenceReceipt) = (.ok referenceReceipt, [])) ∧
    (Receipt.WF exampleReceipt2930 ∧
      Receipt.decode (Receipt.encode exampleReceipt2930) = (.ok exampleReceipt2930, [])) ∧
    (Receipt.WF exampleReceipt1559min ∧
      Receipt.decode (Receipt.encode exampleReceipt1559min) = (.ok exampleReceipt1559min, [])) :=
  ⟨⟨by decide, receipt_decode_encode_roundtrip referenceReceipt (by decide)⟩,
   ⟨by decide, receipt_decode_encode_roundtrip exampleReceipt2930 (by decide)⟩,
   ⟨by decide, receipt_decode_encode_roundtrip exampleReceipt1559min (by decide)⟩⟩

/-- C8 counterexample: the reference vector is 361 bytes long, not 360 as
claimed. -/
theorem reference_vector_length_not_360 :
    (Receipt.encode referenceReceipt).length ≠ 360 ∧
    (Receipt.encode referenceReceipt).length = 361 := by
  refine ⟨by decide, by decide⟩

/-- C8 (amended): the reference legacy receipt encodes to exactly the
361-byte test vector, which begins with the long-form list header
`0xf9 0x01 0x66`. -/
theorem reference_vector_encoding :
    Receipt.encode referenceReceipt = referenceVectorBytes ∧
    (Receipt.encode referenceReceipt).length = 361 ∧
    (Receipt.encode referenceReceipt).take 3 = [0xf9, 0x01, 0x66] := by
  refine ⟨by decide, by decide, by decide⟩

/-- C7 counterexample: on the typed path the outer header is consumed from
the caller's cursor before the discriminant check, so the failing decode of
`[0x82, 0x03, 0x00]` (header byte consumed, bad discriminant `0x03`) leaves
the cursor moved — the claim that the cursor is always restored on error is
false. -/
theorem receipt_decode_consumes_on_error :
    (Receipt.decode [0x82, 0x03, 0x00]).1 = .error (.custom ("invalid receipt type")) ∧
    (Receipt.decode [0x82, 0x03, 0x00]).2 = [0x03, 0x00] ∧
    (Receipt.decode [0x82, 0x03, 0x00]).2 ≠ [0x82, 0x03, 0x00] := by
  refine ⟨by decide, by decide, by decide⟩

/-- C7 (amended): the cursor is left unchanged whenever decode fails on a
buffer whose first byte is at least `0xc0` (the legacy and empty-list
paths) and on the empty buffer; only the typed path (first byte below
`0xc0`) can consume bytes on failure. -/
theorem receipt_decode_restores_cursor_non_typed (buf : List Nat)
    (h : ∀ b0, buf.head? = some b0 → 0xc0 ≤ b0) (e : DecodeError)
    (herr : (Receipt.decode buf).1 = .error e) : (Receipt.decode buf).2 = buf := by
  cases buf with
  | nil => rfl
  | cons b0 bs =>
    have hb0 : 0xc0 ≤ b0 := h b0 rfl
    simp only [Receipt.decode]
    rw [if_neg (by omega : ¬ b0 < 0xc0)]
    by_cases he : b0 = 0xc0
    · rw [if_pos he]
    · rw [if_neg he]
      cases hd : Receipt.decode_receipt (b0 :: bs) .legacy with
      | error e2 => rfl
      | ok p =>
        obtain ⟨t, rest⟩ := p
        exfalso
        simp only [Receipt.decode] at herr
        rw [if_neg (by omega : ¬ b0 < 0xc0), if_neg he, hd] at herr
        simp at herr

/-- Witness for the amended C7 at the one-byte buffer `[0xc1]`, where the
legacy decode fails with input-too-short and the cursor is restored. -/
theorem receipt_decode_restores_cursor_non_typed_witness :
    (∀ b0, ([0xc1] : List Nat).head? = some b0 → 0xc0 ≤ b0) ∧
    (Receipt.decode [0xc1]).1 = .error .inputTooShort ∧
    (Receipt.decode [0xc1]).2 = [0xc1] :=
  ⟨by decide, by decide,
    receipt_decode_restores_cursor_non_typed [0xc1] (by decide) .inputTooShort (by decide)⟩

/-- C9: removing the final byte from the encoding of any wellformed receipt
(any tx_type) makes decode fail. -/
theorem receipt_decode_truncated_fails (r : Receipt) (h : r.WF) :
    ∃ e, (Receipt.decode ((Receipt.encode r).dropLast)).1 = .error e :=
  Receipt.decode_truncated r h

/-- Witness for C9 at the reference legacy receipt and at its EIP-2930
retyping. -/
theorem receipt_decode_truncated_fails_witness :
    (Receipt.WF referenceReceipt ∧
      ∃ e, (Receipt.decode ((Receipt.encode referenceReceipt).dropLast)).1 = .error e) ∧
    (Receipt.WF exampleReceipt2930 ∧
      ∃ e, (Receipt.decode ((Receipt.encode exampleReceipt2930).dropLast)).1 = .error e) :=
  ⟨⟨by decide, receipt_decode_truncated_fails referenceReceipt (by decide)⟩,
   ⟨by decide, receipt_decode_truncated_fails exampleReceipt2930 (by decide)⟩⟩

end RethPrimitives

namespace RethPrimitives

open RethRlp

/-- C4: typed envelope framing: encoding a typed receipt with the outer
header writes a string-form header for `1 + inner` bytes, then the
discriminant (`0x01` for EIP-2930, `0x02` for EIP-1559), then the inner
list bytes, which are exactly the complete encoding of the same receipt
retyped as Legacy; without the outer header only discriminant plus inner
list are written. -/
theorem typed_envelope_framing (r : Receipt) (d : Nat)
    (h : (r.tx_type = TxType.eip2930 ∧ d = 0x01) ∨ (r.tx_type = TxType.eip1559 ∧ d = 0x02)) :
    Receipt.encode_inner r true =
      Header.encode ⟨false, r.encode_fields.length + 1⟩ ++ d :: r.encode_fields
    ∧ Receipt.encode_inner r false = d :: r.encode_fields
    ∧ Receipt.encode { r with tx_type := TxType.legacy } = r.encode_fields := by
  have hfields : Receipt.encode_fields { r with tx_type := TxType.legacy }
      = r.encode_fields := rfl
  rcases h with ⟨h1, h2⟩ | ⟨h1, h2⟩ <;> subst h2 <;>
    exact ⟨by simp [Receipt.encode_inner, h1],
      by simp [Receipt.encode_inner, h1],
      by simp [Receipt.encode, Receipt.encode_inner, hfields]⟩

/-- Witness for C4 at the EIP-2930 retyping of the reference receipt. -/
theorem typed_envelope_framing_witness :
    Receipt.encode_inner exampleReceipt2930 true =
      Header.encode ⟨false, (Receipt.encode_fields exampleReceipt2930).length + 1⟩ ++
        0x01 :: Receipt.encode_fields exampleReceipt2930
    ∧ Receipt.encode_inner exampleReceipt2930 false =
        0x01 :: Receipt.encode_fields exampleReceipt2930
    ∧ Receipt.encode { exampleReceipt2930 with tx_type := TxType.legacy } =
        Receipt.encode_fields exampleReceipt2930 :=
  typed_envelope_framing exampleReceipt2930 0x01 (Or.inl ⟨rfl, rfl⟩)

/-- C5: legacy wire format: the encoding of a Legacy receipt is exactly the
inner list — a list header whose payload length is the sum of the four
field lengths, then success as the 0/1 scalar, the gas scalar, the bloom
string, and the log list, in that order, with no extra wrapping. -/
theorem legacy_wire_format (r : Receipt) (h : r.tx_type = TxType.legacy) :
    Receipt.encode r =
      Header.encode ⟨true, (rlpBool r.success).length + (rlpUint r.cumulative_gas_used).length +
        (rlpStr r.bloom).length + (encLogs r.logs).length⟩ ++
      (rlpUint (if r.success then 1 else 0) ++ (rlpUint r.cumulative_gas_used ++
        (rlpStr r.bloom ++ encLogs r.logs))) := by
  have hsplit := r.encode_fields_split
  have henc : Receipt.encode r = r.encode_fields := by
    simp [Receipt.encode, Receipt.encode_inner, h]
  rw [henc, hsplit]
  rfl

/-- Witness for C5 at the reference legacy receipt. -/
theorem legacy_wire_format_witness :
    Receipt.encode referenceReceipt =
      Header.encode ⟨true, (rlpBool referenceReceipt.success).length +
        (rlpUint referenceReceipt.cumulative_gas_used).length +
        (rlpStr referenceReceipt.bloom).length + (encLogs referenceReceipt.logs).length⟩ ++
      (rlpUint (if referenceReceipt.success then 1 else 0) ++
        (rlpUint referenceReceipt.cumulative_gas_used ++
        (rlpStr referenceReceipt.bloom ++ encLogs referenceReceipt.logs))) :=
  legacy_wire_format referenceReceipt rfl

end RethPrimitives

namespace RethPrimitives

open RethRlp

/-- C3: decode dispatch: an empty buffer fails; a first byte below `0xc0`
takes the typed path (outer header decoded, then the discriminant byte:
`0x01` decodes as EIP-2930, `0x02` as EIP-1559, anything else fails with
the invalid-receipt-type error); exactly `0xc0` fails as an empty list; a
first byte above `0xc0` decodes a Legacy receipt from the full buffer, and
the shared routine tags its result with the dispatched tx_type. -/
theorem receipt_decode_dispatch (buf : List Nat) :
    (buf = [] →
      Receipt.decode buf = (.error (.custom ("cannot decode a receipt from empty bytes")), []))
    ∧ (∀ b0 bs, buf = b0 :: bs → b0 < 0xc0 →
        (∀ e buf1, Header.decode buf = (.error e, buf1) →
          Receipt.decode buf = (.error e, buf1))
        ∧ (∀ hd, Header.decode buf = (.ok hd, []) →
            Receipt.decode buf =
              (.error (.custom ("typed receipt cannot be decoded from an empty slice")), []))
        ∧ (∀ hd d rest, Header.decode buf = (.ok hd, d :: rest) →
            (d = 0x01 →
              Receipt.decode buf =
                (match Receipt.decode_receipt rest TxType.eip2930 with
                  | .error e => (.error e, rest)
                  | .ok (t, r4) => (.ok t, r4)))
            ∧ (d = 0x02 →
              Receipt.decode buf =
                (match Receipt.decode_receipt rest TxType.eip1559 with
                  | .error e => (.error e, rest)
                  | .ok (t, r4) => (.ok t, r4)))
            ∧ (d ≠ 0x01 → d ≠ 0x02 →
              Receipt.decode buf = (.error (.custom ("invalid receipt type")), d :: rest))))
    ∧ (∀ bs, buf = 0xc0 :: bs →
        Receipt.decode buf = (.error (.custom ("an empty list is not a valid receipt encoding")), buf))
    ∧ (∀ b0 bs, buf = b0 :: bs → 0xc0 < b0 →
        Receipt.decode buf =
          (match Receipt.decode_receipt buf TxType.legacy with
            | .error e => (.error e, buf)
            | .ok (t, r4) => (.ok t, r4)))
    ∧ (∀ tt r r4, Receipt.decode_receipt buf tt = .ok (r, r4) → r.tx_type = tt) := by
  refine ⟨?_, ?_, ?_, ?_, ?_⟩
  · rintro rfl
    rfl
  · rintro b0 bs rfl hlt
    refine ⟨?_, ?_, ?_⟩
    · intro e buf1 hh
      simp only [Receipt.decode]
      rw [if_pos hlt, hh]
    · intro hd hh
      simp only [Receipt.decode]
      rw [if_pos hlt, hh]
    · intro hd d rest hh
      refine ⟨?_, ?_, ?_⟩
      · rintro rfl
        simp only [Receipt.decode]
        rw [if_pos hlt, hh]
        norm_num
      · rintro rfl
        simp only [Receipt.decode]
        rw [if_pos hlt, hh]
        norm_num
      · intro h1 h2
        simp only [Receipt.decode]
        rw [if_pos hlt, hh]
        simp [h1, h2]
  · rintro bs rfl
    simp only [Receipt.decode]
    norm_num
  · rintro b0 bs rfl hgt
    simp only [Receipt.decode]
    rw [if_neg (by omega : ¬ b0 < 0xc0), if_neg (by omega : ¬ b0 = 0xc0)]
  · intro tt r r4 hh
    exact Receipt.decode_receipt_tag buf tt r r4 hh

/-- Witness for C3: the empty buffer, the bare empty list `0xc0`, an
invalid discriminant, and a legacy buffer that fails inside the shared
routine with the cursor restored. -/
theorem receipt_decode_dispatch_witness :
    Receipt.decode [] = (.error (.custom ("cannot decode a receipt from empty bytes")), []) ∧
    Receipt.decode [0xc0] =
      (.error (.custom ("an empty list is not a valid receipt encoding")), [0xc0]) ∧
    Receipt.decode [0x83, 0x04, 0x05, 0x06] =
      (.error (.custom ("invalid receipt type")), [0x04, 0x05, 0x06]) ∧
    Receipt.decode [0xc2, 0x80] = (.error .inputTooShort, [0xc2, 0x80]) := by
  refine ⟨?_, ?_, ?_, ?_⟩
  · exact (receipt_decode_dispatch []).1 rfl
  · exact (receipt_decode_dispatch [0xc0]).2.2.1 [] rfl
  · exact ((receipt_decode_dispatch [0x83, 0x04, 0x05, 0x06]).2.1 0x83 [0x04, 0x05, 0x06]
      rfl (by decide)).2.2 ⟨false, 3⟩ 0x04 [0x05, 0x06] (by decide) |>.2.2 (by decide) (by decide)
  · have h4 := (receipt_decode_dispatch [0xc2, 0x80]).2.2.2.1 0xc2 [0x80] rfl (by decide)
    rw [h4]
    decide

end RethPrimitives

namespace RethPrimitives

open RethRlp

/-- The 262-byte inner list encoding of the minimal receipt: list payload
`0x80` (success = false), `0x80` (gas = 0), the 256-byte zero bloom string,
and the empty log list `0xc0` (without its own list header here: the first
bytes shown are the fields, the caller prepends a header). -/
def exampleFieldsMin : List Nat :=
  [0x80, 0x80, 0xb9, 0x01, 0x00] ++ List.replicate 256 0 ++ [0xc0]

/-- C6: inner-list decode validation: the shared routine rejects a
non-list header with the unexpected-string error; when the header is a
list and the four fields decode, the routine fails with a length-mismatch
carrying the declared payload length and the consumed byte count whenever
they differ, and succeeds with a receipt tagged with the given tx_type
exactly when they match. -/
theorem decode_receipt_inner_validation (buf : List Nat) (tt : TxType) :
    (∀ hd rest, Header.decode buf = (.ok hd, rest) → hd.list = false →
      Receipt.decode_receipt buf tt = .error .unexpectedString)
    ∧ (∀ hd rest s b1 g b2 bl b3 lg b4,
        Header.decode buf = (.ok hd, rest) → hd.list = true →
        decodeBool rest = .ok (s, b1) → decodeUint 8 b1 = .ok (g, b2) →
        decodeFixedBytes 256 b2 = .ok (bl, b3) → decodeLogs b3 = .ok (lg, b4) →
        (rest.length - b4.length ≠ hd.payload_length →
          Receipt.decode_receipt buf tt =
            .error (.listLengthMismatch hd.payload_length (rest.length - b4.length)))
        ∧ (rest.length - b4.length = hd.payload_length →
          Receipt.decode_receipt buf tt = .ok (⟨tt, s, g, bl, lg⟩, b4)))
    ∧ (∀ r r4, Receipt.decode_receipt buf tt = .ok (r, r4) → r.tx_type = tt) := by
  refine ⟨?_, ?_, ?_⟩
  · intro hd rest hh hl
    unfold Receipt.decode_receipt
    rw [hh]
    simp [hl]
  · intro hd rest s b1 g b2 bl b3 lg b4 hh hl h1 h2 h3 h4
    constructor
    · intro hne
      unfold Receipt.decode_receipt
      rw [hh]
      simp [hl, h1, h2, h3, h4, hne]
    · intro heq
      unfold Receipt.decode_receipt
      rw [hh]
      simp [hl, h1, h2, h3, h4, heq]
  · intro r r4 hh
    exact Receipt.decode_receipt_tag buf tt r r4 hh

/-- Witness for C6: a string header is rejected; a list header declaring 10
payload bytes while the fields consume 262 fails with the mismatch error
carrying both counts; the correct declared length 262 succeeds with the
receipt tagged Legacy. -/
theorem decode_receipt_inner_validation_witness :
    Receipt.decode_receipt [0x80] TxType.legacy = .error .unexpectedString ∧
    Receipt.decode_receipt (0xca :: exampleFieldsMin) TxType.legacy =
      .error (.listLengthMismatch 10 262) ∧
    Receipt.decode_receipt ([0xf9, 0x01, 0x06] ++ exampleFieldsMin) TxType.legacy =
      .ok (⟨TxType.legacy, false, 0, List.replicate 256 0, []⟩, []) := by
  refine ⟨?_, ?_, ?_⟩
  · exact (decode_receipt_inner_validation [0x80] TxType.legacy).1 ⟨false, 0⟩ [] (by decide) rfl
  · exact (((decode_receipt_inner_validation (0xca :: exampleFieldsMin) TxType.legacy).2.1
      ⟨true, 10⟩ exampleFieldsMin false (exampleFieldsMin.drop 1) 0 (exampleFieldsMin.drop 2)
      (List.replicate 256 0) [0xc0] [] []
      (by decide) rfl (by decide) (by decide) (by decide) (by decide)).1 (by decide))
  · exact (((decode_receipt_inner_validation ([0xf9, 0x01, 0x06] ++ exampleFieldsMin)
      TxType.legacy).2.1
      ⟨true, 262⟩ exampleFieldsMin false (exampleFieldsMin.drop 1) 0 (exampleFieldsMin.drop 2)
      (List.replicate 256 0) [0xc0] [] []
      (by decide) rfl (by decide) (by decide) (by decide) (by decide)).2 (by decide))

/-- C10: the outer envelope length is never validated on the typed decode
path: whenever the first byte is below `0xc0`, the outer header decodes to
any header at all, the next byte is a valid discriminant and the rest is a
wellformed inner list, decode succeeds with that inner receipt — the outer
header's declared payload length is never compared with what follows. -/
theorem outer_header_length_not_validated (buf : List Nat) (b0 : Nat) (hd : Header)
    (rest rest' r4 : List Nat) (d : Nat) (r : Receipt)
    (h1 : buf.head? = some b0) (hb : b0 < 0xc0)
    (h2 : Header.decode buf = (.ok hd, rest))
    (h3 : rest = d :: rest')
    (h4 : d = 0x01 ∨ d = 0x02)
    (h5 : Receipt.decode_receipt rest'
        (if d = 0x01 then TxType.eip2930 else TxType.eip1559) = .ok (r, r4)) :
    Receipt.decode buf = (.ok r, r4) := by
  cases buf with
  | nil => simp at h1
  | cons c cs =>
    have hcb : c = b0 := by
      simp only [List.head?] at h1
      injection h1
    subst hcb
    subst h3
    rcases h4 with rfl | rfl
    · norm_num at h5
      simp only [Receipt.decode]
      rw [if_pos hb, h2]
      norm_num [h5]
    · norm_num at h5
      simp only [Receipt.decode]
      rw [if_pos hb, h2]
      norm_num [h5]

/-- Witness for C10: an outer header declaring only 5 payload bytes (where
the true content is 1 discriminant plus 265 inner-list bytes) still decodes
successfully to the same receipt. -/
theorem outer_header_length_not_validated_witness :
    Header.decode (0x85 :: 0x01 :: Receipt.encode_fields exampleReceipt1559min) =
      (.ok ⟨false, 5⟩, 0x01 :: Receipt.encode_fields exampleReceipt1559min) ∧
    (5 : Nat) ≠ (Receipt.encode_fields exampleReceipt1559min).length + 1 ∧
    Receipt.decode (0x85 :: 0x01 :: Receipt.encode_fields exampleReceipt1559min) =
      (.ok exampleReceipt2930min, []) := by
  refine ⟨by decide, by decide, ?_⟩
  exact outer_header_length_not_validated
    (0x85 :: 0x01 :: Receipt.encode_fields exampleReceipt1559min) 0x85 ⟨false, 5⟩
    (0x01 :: Receipt.encode_fields exampleReceipt1559min)
    (Receipt.encode_fields exampleReceipt1559min) [] 0x01 exampleReceipt2930min
    rfl (by decide) (by decide) rfl (Or.inl rfl) (by decide)

end RethPrimitives
